import Mathlib

namespace Askrepo

/-! Shallow embedding of the askrepo repository (src/file_utils.rs,
    src/google_api.rs, src/main.rs).  Rust strings are modelled as lists of
    characters; byte sequences as lists of naturals; fallible operations as
    Option/Except.  Library behaviour (serde_json, the ignore walker, the
    filesystem) is modelled explicitly where the repository code depends on
    it. -/

abbrev Str := List Char

def str (s : String) : Str := s.data

/-! ### JSON string unescaping (serde_json string-literal grammar)

decBody scans the body of a JSON string literal (the part after the opening
quote) and returns the decoded content together with the input remaining
after the closing quote.  It is shared by the JSON parser model and by the
spec-level inverse of the serializer escaping. -/

def hexVal (c : Char) : Option Nat :=
  if c = '0' then some 0
  else if c = '1' then some 1
  else if c = '2' then some 2
  else if c = '3' then some 3
  else if c = '4' then some 4
  else if c = '5' then some 5
  else if c = '6' then some 6
  else if c = '7' then some 7
  else if c = '8' then some 8
  else if c = '9' then some 9
  else if c = 'a' then some 10
  else if c = 'b' then some 11
  else if c = 'c' then some 12
  else if c = 'd' then some 13
  else if c = 'e' then some 14
  else if c = 'f' then some 15
  else if c = 'A' then some 10
  else if c = 'B' then some 11
  else if c = 'C' then some 12
  else if c = 'D' then some 13
  else if c = 'E' then some 14
  else if c = 'F' then some 15
  else none

def unescChar (e : Char) : Option Char :=
  if e = '"' then some '"'
  else if e = '\\' then some '\\'
  else if e = '/' then some '/'
  else if e = 'b' then some '\x08'
  else if e = 'f' then some '\x0c'
  else if e = 'n' then some '\n'
  else if e = 'r' then some '\r'
  else if e = 't' then some '\t'
  else none

def decBody : Str → Option (Str × Str)
  | [] => none
  | c :: rest =>
    if c = '"' then some ([], rest)
    else if c = '\\' then
      match rest with
      | [] => none
      | e :: rest2 =>
        if e = 'u' then
          match rest2 with
          | a :: b :: c2 :: d :: rest3 =>
            match hexVal a, hexVal b, hexVal c2, hexVal d with
            | some x1, some x2, some x3, some x4 =>
              (decBody rest3).map
                (fun p => (Char.ofNat (((x1 * 16 + x2) * 16 + x3) * 16 + x4) :: p.1, p.2))
            | _, _, _, _ => none
          | _ => none
        else
          (unescChar e).bind (fun ch => (decBody rest2).map (fun p => (ch :: p.1, p.2)))
    else (decBody rest).map (fun p => (c :: p.1, p.2))

/-! ### JSON values and parser (model of serde_json::from_str)

A fuel-bounded recursive-descent parser.  Numbers are kept as their lexeme:
no claim inspects numeric values.  Objects keep fields in encounter order;
lookup takes the last binding with a given key, matching the last-wins
insertion of serde_json's map. -/

inductive Json where
  | null
  | bool (b : Bool)
  | num (lexeme : Str)
  | string (s : Str)
  | arr (elems : List Json)
  | obj (fields : List (Str × Json))

def skipWs : Str → Str
  | [] => []
  | c :: cs => if c = ' ' ∨ c = '\n' ∨ c = '\t' ∨ c = '\r' then skipWs cs else c :: cs

def numChar (c : Char) : Bool :=
  c.isDigit || c = '-' || c = '+' || c = '.' || c = 'e' || c = 'E'

mutual

def parseVal : Nat → Str → Option (Json × Str)
  | 0, _ => none
  | f + 1, s =>
    match skipWs s with
    | 'n' :: 'u' :: 'l' :: 'l' :: rest => some (.null, rest)
    | 't' :: 'r' :: 'u' :: 'e' :: rest => some (.bool true, rest)
    | 'f' :: 'a' :: 'l' :: 's' :: 'e' :: rest => some (.bool false, rest)
    | '"' :: rest => (decBody rest).map (fun p => (.string p.1, p.2))
    | '\x7b' :: rest => parseFields f (skipWs rest)
    | '[' :: rest => parseElems f (skipWs rest)
    | c :: rest =>
      if c.isDigit || c = '-' then
        some (.num ((c :: rest).takeWhile numChar), (c :: rest).dropWhile numChar)
      else none
    | [] => none

def parseElems : Nat → Str → Option (Json × Str)
  | 0, _ => none
  | f + 1, s =>
    match s with
    | ']' :: rest => some (.arr [], rest)
    | _ =>
      match parseVal f s with
      | none => none
      | some (v, r) =>
        match parseMoreElems f (skipWs r) with
        | some (vs, r2) => some (.arr (v :: vs), r2)
        | none => none

def parseMoreElems : Nat → Str → Option (List Json × Str)
  | 0, _ => none
  | f + 1, s =>
    match s with
    | ']' :: rest => some ([], rest)
    | ',' :: rest =>
      match parseVal f rest with
      | none => none
      | some (v, r) =>
        match parseMoreElems f (skipWs r) with
        | some (vs, r2) => some (v :: vs, r2)
        | none => none
    | _ => none

def parseFields : Nat → Str → Option (Json × Str)
  | 0, _ => none
  | f + 1, s =>
    match s with
    | '\x7d' :: rest => some (.obj [], rest)
    | _ =>
      match parseField f s with
      | none => none
      | some (kv, r) =>
        match parseMoreFields f (skipWs r) with
        | some (kvs, r2) => some (.obj (kv :: kvs), r2)
        | none => none

def parseField : Nat → Str → Option ((Str × Json) × Str)
  | 0, _ => none
  | f + 1, s =>
    match skipWs s with
    | '"' :: rest =>
      match decBody rest with
      | none => none
      | some (k, r) =>
        match skipWs r with
        | ':' :: r2 =>
          match parseVal f r2 with
          | none => none
          | some (v, r3) => some ((k, v), r3)
        | _ => none
    | _ => none

def parseMoreFields : Nat → Str → Option (List (Str × Json) × Str)
  | 0, _ => none
  | f + 1, s =>
    match s with
    | '\x7d' :: rest => some ([], rest)
    | ',' :: rest =>
      match parseField f rest with
      | none => none
      | some (kv, r) =>
        match parseMoreFields f (skipWs r) with
        | some (kvs, r2) => some (kv :: kvs, r2)
        | none => none
    | _ => none

end

def from_str (s : Str) : Option Json :=
  match parseVal (2 * s.length + 2) s with
  | some (v, rest) => if skipWs rest = [] then some v else none
  | none => none

/-! ### serde_json::Value accessors used by google_api.rs -/

def objGet : List (Str × Json) → Str → Option Json
  | [], _ => none
  | (k, v) :: rest, key =>
    match objGet rest key with
    | some r => some r
    | none => if k = key then some v else none

def jindex (v : Json) (key : Str) : Json :=
  match v with
  | .obj fields => (objGet fields key).getD .null
  | _ => .null

def jget (v : Json) (i : Nat) : Option Json :=
  match v with
  | .arr es => es.get? i
  | _ => none

def asStr : Json → Option Str
  | .string s => some s
  | _ => none

def asObj : Json → Option (List (Str × Json))
  | .obj fields => some fields
  | _ => none

def isNull : Json → Bool
  | .null => true
  | _ => false

def valueEqStr (v : Json) (s : Str) : Bool :=
  match v with
  | .string t => t == s
  | _ => false

/-! ### ContentSerializer escaping (file_utils.rs, get_files_content lines 74-76)

The Rust code escapes a file's content with json!(content).to_string()
(a JSON string literal), applies the same encoding a second time, and then
slices off the first and last byte of the result.  encChar mirrors
serde_json's per-character escape table (short escapes for the usual control
characters, lowercase \u00XX for the remaining ones, everything from 0x20 up
emitted verbatim). -/

def hexDigit : Nat → Char
  | 0 => '0'
  | 1 => '1'
  | 2 => '2'
  | 3 => '3'
  | 4 => '4'
  | 5 => '5'
  | 6 => '6'
  | 7 => '7'
  | 8 => '8'
  | 9 => '9'
  | 10 => 'a'
  | 11 => 'b'
  | 12 => 'c'
  | 13 => 'd'
  | 14 => 'e'
  | 15 => 'f'
  | _ => '0'

def encChar (c : Char) : Str :=
  if c = '"' then ['\\', '"']
  else if c = '\\' then ['\\', '\\']
  else if c = '\x08' then ['\\', 'b']
  else if c = '\t' then ['\\', 't']
  else if c = '\n' then ['\\', 'n']
  else if c = '\x0c' then ['\\', 'f']
  else if c = '\r' then ['\\', 'r']
  else if c.toNat < 32 then ['\\', 'u', '0', '0', hexDigit (c.toNat / 16), hexDigit (c.toNat % 16)]
  else [c]

def encBody : Str → Str
  | [] => []
  | c :: cs => encChar c ++ encBody cs

def jsonEncode (s : Str) : Str := '"' :: (encBody s ++ ['"'])

def escape (s : Str) : Str := ((jsonEncode (jsonEncode s)).drop 1).dropLast

/-- Spec-level inverse of a single JSON string-literal encoding: expects a
full literal (quotes included) and returns its decoded content. -/
def jsonDecString (l : Str) : Option Str :=
  match l with
  | '"' :: rest =>
    match decBody rest with
    | some (s, []) => some s
    | _ => none
  | _ => none

/-- Spec-level inverse of escape: re-add the quotes the code sliced off and
undo the two JSON string encodings. -/
def unescape (t : Str) : Option Str :=
  match jsonDecString ('"' :: (t ++ ['"'])) with
  | some u => jsonDecString u
  | none => none

/-! ### Debug formatting of a Json value (model of the Rust debug format
used for the refusal marker in google_api.rs line 105) -/

mutual

def debugFmt : Json → Str
  | .null => str "Null"
  | .bool true => str "Bool(true)"
  | .bool false => str "Bool(false)"
  | .num lexeme => str "Number(" ++ lexeme ++ str ")"
  | .string s => str "String(" ++ jsonEncode s ++ str ")"
  | .arr es => str "Array [" ++ debugFmtList es ++ str "]"
  | .obj fields => str "Object \x7b" ++ debugFmtFields fields ++ str "\x7d"

def debugFmtList : List Json → Str
  | [] => []
  | [v] => debugFmt v
  | v :: vs => debugFmt v ++ str ", " ++ debugFmtList vs

def debugFmtFields : List (Str × Json) → Str
  | [] => []
  | [(k, v)] => jsonEncode k ++ str ": " ++ debugFmt v
  | (k, v) :: kvs => jsonEncode k ++ str ": " ++ debugFmt v ++ str ", " ++ debugFmtFields kvs

end

/-! ### StreamDecoder (google_api.rs, parse_google_api_response lines 68-120) -/

/-- ASCII fragment of Rust char::is_whitespace (str::trim). -/
def isRustWs (c : Char) : Bool :=
  c = ' ' || c = '\t' || c = '\n' || c = '\r' || c.toNat = 11 || c.toNat = 12

def rustTrim (s : Str) : Str :=
  ((s.dropWhile isRustWs).reverse.dropWhile isRustWs).reverse

/-- Rust str::split(sep): a separator between every piece, so n separators
give n+1 pieces. -/
def splitC (c : Char) : Str → List Str
  | [] => [[]]
  | x :: xs =>
    match splitC c xs with
    | [] => [[]]
    | h :: t => if x = c then [] :: h :: t else (x :: h) :: t

def stripCR (s : Str) : Str :=
  if s.getLast? = some '\r' then s.dropLast else s

/-- Rust str::lines: split on newline, drop one trailing empty piece,
strip a trailing carriage return from each line. -/
def rustLines (s : Str) : List Str :=
  let parts := splitC '\n' s
  (if parts.getLast? = some [] then parts.dropLast else parts).map stripCR

/-- Rust str::strip option-returning form used on line 87. -/
def stripPre (p s : Str) : Option Str :=
  if p.isPrefixOf s then some (s.drop p.length) else none

/-- Body of the per-line loop of parse_google_api_response (lines 72-117):
the text the line contributes to the accumulated result. -/
def lineOutput (rawLine : Str) : Str :=
  let line := rustTrim rawLine
  if line = [] then []
  else if line = str "data: [DONE]" then []
  else if (str "data: ").isPrefixOf line then
    match stripPre (str "data: ") line with
    | none => []
    | some stripped =>
      let json_str := rustTrim stripped
      match from_str json_str with
      | none => []
      | some v =>
        match jget (jindex v (str "choices")) 0 with
        | none => []
        | some choice =>
          let delta := jindex choice (str "delta")
          if valueEqStr (jindex choice (str "finish_reason")) (str "stop") then []
          else
            match asObj delta with
            | none => []
            | some delta_obj =>
              let contentOut :=
                match (objGet delta_obj (str "content")).bind asStr with
                | some c => if c = [] then [] else c
                | none => []
              let refusalOut :=
                match objGet delta_obj (str "refusal") with
                | some refusal =>
                  if isNull refusal then []
                  else str "[refusal: " ++ debugFmt refusal ++ str "]"
                | none => []
              let roleOut :=
                match (objGet delta_obj (str "role")).bind asStr with
                | some role => str "[role: " ++ role ++ str "]"
                | none => []
              contentOut ++ refusalOut ++ roleOut
  else []

def parseLines (ls : List Str) : Str :=
  ls.foldl (fun acc l => acc ++ lineOutput l) []

def parse_google_api_response (data : Str) : Str :=
  parseLines (rustLines data)

/-- Streaming loop of get_google_api_data (lines 36-56): each received chunk
is decoded on its own by parse_google_api_response and the nonempty results
are sent down the channel in order; this is the concatenation the consumer
observes.  No byte is carried over from one chunk to the next. -/
def streamDecode (chunks : List Str) : Str :=
  chunks.foldl (fun acc c => acc ++ parse_google_api_response c) []

/-! ### BinaryClassifier (file_utils.rs lines 7-36) -/

def binary_extensions : List Str :=
  [str "jpg", str "jpeg", str "png", str "gif", str "bmp", str "exe", str "dll"]

def lowerStr (s : Str) : Str := s.map Char.toLower

def is_binary_file_by_extension (file : Str) : Bool :=
  match (splitC '.' file).getLast? with
  | some ext => binary_extensions.contains (lowerStr ext)
  | none => false

/-- The suffix of l after the last occurrence of c (l itself if c is
absent); used to state claims about split-then-last. -/
def afterLast (c : Char) : Str → Str
  | [] => []
  | x :: xs => if c ∈ xs then afterLast c xs else if x = c then xs else x :: xs

def MAX_SCAN_SIZE : Nat := 1024

def MAGIC_NUMBERS : List (List Nat) :=
  [[0xFF, 0xD8, 0xFF],
   [0x89, 0x50, 0x4E, 0x47, 0x0D, 0x0A, 0x1A, 0x0A],
   [0x47, 0x49, 0x46, 0x38, 0x37, 0x61],
   [0x47, 0x49, 0x46, 0x38, 0x39, 0x61]]

/-! ### Abstract filesystem

pathExists models Path::exists; walkerOut is the entry sequence produced by
the ignore-crate walker for the run's base path (Ok entries carry the
file_type() and path().to_str() results, Err entries are walker errors);
readBytes models fs::read and readToString models fs::read_to_string
(none on any I/O or encoding failure). -/

structure FType where
  isFile : Bool

structure WalkEntry where
  path : Option Str
  ftype : Option FType

structure Fs where
  pathExists : Str → Bool
  walkerOut : List (Except Str WalkEntry)
  readBytes : Str → Option (List Nat)
  readToString : Str → Option Str

def is_binary_file_by_content (fs : Fs) (file : Str) : Bool :=
  match fs.readBytes file with
  | none => false
  | some data =>
    let scan_size := min data.length MAX_SCAN_SIZE
    let has_zero_bytes := (data.take scan_size).contains 0
    has_zero_bytes || MAGIC_NUMBERS.any (fun magic => magic.isPrefixOf data)

def is_binary_file (fs : Fs) (file : Str) : Bool :=
  is_binary_file_by_extension file || is_binary_file_by_content fs file

/-! ### TreeCollector (file_utils.rs, get_tracked_files lines 38-61) -/

def collectPaths : List (Except Str WalkEntry) → List Str
  | [] => []
  | Except.ok entry :: rest =>
    if (entry.ftype.map (fun ft => ft.isFile)).getD false then
      match entry.path with
      | some p => p :: collectPaths rest
      | none => collectPaths rest
    else collectPaths rest
  | Except.error _ :: rest => collectPaths rest

/-- Walker errors are logged and skipped; the function always ends in the
single Ok(files) return. -/
def get_tracked_files (fs : Fs) : Except Str (List Str) :=
  Except.ok (collectPaths fs.walkerOut)

/-! ### ContentSerializer (file_utils.rs, get_files_content lines 63-91) -/

/-- The record the loop body pushes for one candidate file, none when the
file is skipped (binary, or the read fails). -/
def recordOf (fs : Fs) (file : Str) : Option Str :=
  if is_binary_file fs file then none
  else
    match fs.readToString file with
    | some content => some (file ++ '\t' :: escape content)
    | none => none

def get_files_content (fs : Fs) : Except Str Str :=
  match get_tracked_files fs with
  | Except.error e => Except.error e
  | Except.ok files =>
    let result := files.filterMap (recordOf fs)
    if result = [] then Except.error (str "No readable files found")
    else Except.ok (List.intercalate ['\n'] result)

/-! ### Orchestration (main.rs lines 47-63) -/

inductive MainStep where
  | gitMissing
  | invalidBasePath
  | contentError (e : Str)
  | payload (filesContent : Str)

def main_flow (gitAvailable : Bool) (fs : Fs) (path : Str) : MainStep :=
  if ¬ gitAvailable then .gitMissing
  else if ¬ fs.pathExists path then .invalidBasePath
  else
    match get_files_content fs with
    | Except.error e => .contentError e
    | Except.ok content => .payload content

/-! ### Non-streaming decoder -/

/-- Modelled from the spec: the non-streaming response parser (the
candidates / content / parts / text schema) is absent from src/ — main.rs
line 68 calls an Option-returning parse_google_api_response from another
revision, while src/google_api.rs only contains the line-oriented
choices/delta parser.  Per the spec, the decoder locates the nested field
path candidates[0].content.parts[0].text and returns that string when
present; absence of the field yields no output and is not an error. -/
def candidatesText (v : Json) : Option Str :=
  (jget (jindex v (str "candidates")) 0).bind (fun cand =>
    (jget (jindex (jindex cand (str "content")) (str "parts")) 0).bind (fun part =>
      asStr (jindex part (str "text"))))

/-- Modelled from the spec: whole non-streaming decode of one complete JSON
document. -/
def parse_candidates_response (data : Str) : Option Str :=
  match from_str data with
  | none => none
  | some v => candidatesText v

/-! ### Concrete fixtures used by the claims -/

/-- First transport fragment of the split-line scenario: a data: line cut
mid-JSON-string. -/
def frag1 : Str := str "data: \x7b\"choices\":[\x7b\"delta\":\x7b\"content\":\"He"

/-- Second fragment: the rest of that line, newline-terminated. -/
def frag2 : Str := str "llo\"\x7d\x7d]\x7d\n"

/-- Third fragment: the end-of-stream sentinel line. -/
def frag3 : Str := str "data: [DONE]\n"

/-- The payload of a line whose choices[0].finish_reason is stop while its
delta also carries nonempty content. -/
def stopPayload : Str :=
  str "\x7b\"choices\":[\x7b\"delta\":\x7b\"content\":\"X\"\x7d,\"finish_reason\":\"stop\"\x7d]\x7d"

/-- That payload on a data: line. -/
def stopLineContent : Str := str "data: " ++ stopPayload

/-- A complete non-streaming body carrying candidates[0].content.parts[0].text. -/
def docWithText : Str :=
  str "\x7b\"candidates\":[\x7b\"content\":\x7b\"parts\":[\x7b\"text\":\"Hello\"\x7d]\x7d\x7d]\x7d"

/-- A complete non-streaming body with an empty candidates array. -/
def docEmptyCandidates : Str := str "\x7b\"candidates\":[]\x7d"

/-- Filesystem whose root path does not exist: the walker yields a single
error entry, which get_tracked_files logs and skips. -/
def fsMissingRoot : Fs where
  pathExists := fun _ => false
  walkerOut := [Except.error (str "IO error: no such file or directory")]
  readBytes := fun _ => none
  readToString := fun _ => none

/-- Filesystem whose only tracked file matches the binary-extension
denylist. -/
def fsOnlyPng : Fs where
  pathExists := fun _ => true
  walkerOut := [Except.ok ⟨some (str "a.png"), some ⟨true⟩⟩]
  readBytes := fun _ => none
  readToString := fun _ => some (str "text")

/-- Filesystem in which every file's bytes start with the PNG magic
number. -/
def fsPngBytes : Fs where
  pathExists := fun _ => true
  walkerOut := []
  readBytes := fun _ => some [0x89, 0x50, 0x4E, 0x47, 0x0D, 0x0A, 0x1A, 0x0A]
  readToString := fun _ => none

/-- Filesystem whose walk yields a regular file, an entry with a non-UTF-8
path, a directory, and a walker error. -/
def fsWalk : Fs where
  pathExists := fun _ => true
  walkerOut :=
    [Except.ok ⟨some (str "a.txt"), some ⟨true⟩⟩,
     Except.ok ⟨none, some ⟨true⟩⟩,
     Except.ok ⟨some (str "subdir"), some ⟨false⟩⟩,
     Except.error (str "permission denied")]
  readBytes := fun _ => none
  readToString := fun _ => none

/-! ## Theorems -/

/-- Claim C1 (code bug): the streaming loop of get_google_api_data decodes
every transport chunk in isolation, with no buffer carried across feeds, so
the three fragments that split one protocol line mid-JSON-string decode to
nothing at all, while the very same bytes decode to "Hello" when they reach
the parser unsplit.  The claimed buffering does not exist in the code. -/
theorem c1_chunk_split_dropped :
    streamDecode [frag1, frag2, frag3] = [] ∧
    parse_google_api_response (frag1 ++ frag2 ++ frag3) = str "Hello" :=
  ⟨rfl, rfl⟩

/-- Claim C2 (code bug): parse_google_api_response has no raw-text fallback:
an input none of whose lines matches the protocol shapes produces the empty
output, not the input unchanged — contradicting the spec and the
repository's own test test_parse_google_api_response_raw. -/
theorem c2_raw_fallback_missing :
    parse_google_api_response (str "This is a raw response") = [] ∧
    str "This is a raw response" ≠ [] :=
  ⟨rfl, by decide⟩

/-- Claim C5: the (spec-modelled) non-streaming decoder returns the string
at candidates[0].content.parts[0].text when present, yields nothing for an
empty candidates array, and — being a total function into Option — absence
of the field is silence, never an error: whenever the document parses but
the field path is missing, the result is none. -/
theorem c5_candidates :
    parse_candidates_response docWithText = some (str "Hello") ∧
    parse_candidates_response docEmptyCandidates = none ∧
    ∀ d v, from_str d = some v → candidatesText v = none →
      parse_candidates_response d = none := by
  refine ⟨rfl, rfl, ?_⟩
  intro d v h1 h2
  simp [parse_candidates_response, h1, h2]

/-- Witness for C5 at a concrete input: the empty-candidates document
parses, its field path is absent, and the decoder is silent. -/
theorem c5_witness : parse_candidates_response docEmptyCandidates = none :=
  c5_candidates.2.2 docEmptyCandidates (Json.obj [(str "candidates", Json.arr [])]) rfl rfl

/-! ### Accumulator lemmas for the per-line loop -/

theorem foldl_out_append (ls : List Str) (a b : Str) :
    ls.foldl (fun acc l => acc ++ lineOutput l) (a ++ b)
      = a ++ ls.foldl (fun acc l => acc ++ lineOutput l) b := by
  induction ls generalizing b with
  | nil => simp
  | cons l ls ih =>
    simp only [List.foldl_cons]
    rw [List.append_assoc, ih]

theorem foldl_lineOutput (ls : List Str) (init : Str) :
    ls.foldl (fun acc l => acc ++ lineOutput l) init = init ++ parseLines ls := by
  have h := foldl_out_append ls init []
  rw [List.append_nil] at h
  exact h

theorem parseLines_cons (l : Str) (ls : List Str) :
    parseLines (l :: ls) = lineOutput l ++ parseLines ls := by
  have h : parseLines (l :: ls) = (([] : Str) ++ lineOutput l) ++ parseLines ls :=
    foldl_lineOutput ls (([] : Str) ++ lineOutput l)
  rw [h, List.nil_append]

theorem parseLines_append (a b : List Str) :
    parseLines (a ++ b) = parseLines a ++ parseLines b := by
  have h : (a ++ b).foldl (fun acc l => acc ++ lineOutput l) ([] : Str)
      = a.foldl (fun acc l => acc ++ lineOutput l) ([] : Str) ++ parseLines b := by
    rw [List.foldl_append, foldl_lineOutput]
  exact h

theorem parseLines_of_silent {L : Str} (ls₁ ls₂ : List Str) (hL : lineOutput L = []) :
    parseLines (ls₁ ++ L :: ls₂) = parseLines ls₁ ++ parseLines ls₂ := by
  rw [parseLines_append, parseLines_cons, hL, List.nil_append]

/-- Claim C9: a trimmed line equal to data: [DONE], a data:-prefixed line
whose payload is malformed JSON, and any data:-prefixed line whose payload
parses to a value with choices[0].finish_reason equal to stop (whatever
else its delta carries) each contribute nothing, and the lines around them
are decoded exactly as if the silent line were absent. -/
theorem c9_line_tolerance (ls₁ ls₂ : List Str) (L₁ L₂ L₃ j₂ j₃ : Str) (v choice : Json)
    (h₁ : rustTrim L₁ = str "data: [DONE]")
    (h₂ : rustTrim L₂ = str "data: " ++ j₂)
    (hj : from_str (rustTrim j₂) = none)
    (h₃ : rustTrim L₃ = str "data: " ++ j₃)
    (hv : from_str (rustTrim j₃) = some v)
    (hch : jget (jindex v (str "choices")) 0 = some choice)
    (hstop : valueEqStr (jindex choice (str "finish_reason")) (str "stop") = true) :
    parseLines (ls₁ ++ L₁ :: ls₂) = parseLines ls₁ ++ parseLines ls₂ ∧
    parseLines (ls₁ ++ L₂ :: ls₂) = parseLines ls₁ ++ parseLines ls₂ ∧
    parseLines (ls₁ ++ L₃ :: ls₂) = parseLines ls₁ ++ parseLines ls₂ := by
  refine ⟨parseLines_of_silent ls₁ ls₂ ?_, parseLines_of_silent ls₁ ls₂ ?_,
    parseLines_of_silent ls₁ ls₂ ?_⟩
  · simp only [lineOutput, h₁]
    rfl
  · have hne : ¬((str "data: " ++ j₂ : Str) = []) := by
      simp [str]
    by_cases hD : (str "data: " ++ j₂ : Str) = str "data: [DONE]"
    · simp only [lineOutput, h₂, hD]
      rfl
    · have hpre : (str "data: ").isPrefixOf (str "data: " ++ j₂) = true := by
        rw [List.isPrefixOf_iff_prefix]
        exact List.prefix_append _ _
      simp only [lineOutput, h₂]
      rw [if_neg hne, if_neg hD, if_pos hpre]
      simp [stripPre, hpre, List.drop_left, hj]
  · have hne : ¬((str "data: " ++ j₃ : Str) = []) := by
      simp [str]
    by_cases hD : (str "data: " ++ j₃ : Str) = str "data: [DONE]"
    · simp only [lineOutput, h₃, hD]
      rfl
    · have hpre : (str "data: ").isPrefixOf (str "data: " ++ j₃) = true := by
        rw [List.isPrefixOf_iff_prefix]
        exact List.prefix_append _ _
      simp only [lineOutput, h₃]
      rw [if_neg hne, if_neg hD, if_pos hpre]
      simp [stripPre, hpre, List.drop_left, hv, hch, hstop]

/-- Witness for C9 at concrete lines: the three silent line shapes dropped
between a content-bearing line and a raw line; the stop line here carries
nonempty delta content "X" and still emits nothing. -/
theorem c9_witness :
    parseLines ([str "data: \x7b\"choices\":[\x7b\"delta\":\x7b\"content\":\"Hi\"\x7d\x7d]\x7d"]
        ++ (str "data: [DONE]") :: [str "raw tail"]) =
      parseLines [str "data: \x7b\"choices\":[\x7b\"delta\":\x7b\"content\":\"Hi\"\x7d\x7d]\x7d"]
        ++ parseLines [str "raw tail"] ∧
    parseLines ([str "data: \x7b\"choices\":[\x7b\"delta\":\x7b\"content\":\"Hi\"\x7d\x7d]\x7d"]
        ++ (str "data: \x7bbad") :: [str "raw tail"]) =
      parseLines [str "data: \x7b\"choices\":[\x7b\"delta\":\x7b\"content\":\"Hi\"\x7d\x7d]\x7d"]
        ++ parseLines [str "raw tail"] ∧
    parseLines ([str "data: \x7b\"choices\":[\x7b\"delta\":\x7b\"content\":\"Hi\"\x7d\x7d]\x7d"]
        ++ stopLineContent :: [str "raw tail"]) =
      parseLines [str "data: \x7b\"choices\":[\x7b\"delta\":\x7b\"content\":\"Hi\"\x7d\x7d]\x7d"]
        ++ parseLines [str "raw tail"] :=
  c9_line_tolerance
    [str "data: \x7b\"choices\":[\x7b\"delta\":\x7b\"content\":\"Hi\"\x7d\x7d]\x7d"]
    [str "raw tail"]
    (str "data: [DONE]") (str "data: \x7bbad") stopLineContent
    (str "\x7bbad") stopPayload
    (Json.obj [(str "choices",
      Json.arr [Json.obj [(str "delta", Json.obj [(str "content", Json.string (str "X"))]),
        (str "finish_reason", Json.string (str "stop"))]])])
    (Json.obj [(str "delta", Json.obj [(str "content", Json.string (str "X"))]),
      (str "finish_reason", Json.string (str "stop"))])
    rfl rfl rfl rfl rfl rfl rfl

/-! ### Round trip of the serializer escaping -/

theorem hexVal_hexDigit (d : Nat) (h : d < 16) : hexVal (hexDigit d) = some d := by
  interval_cases d <;> rfl

theorem decBody_quote (l : Str) : decBody ('"' :: l) = some ([], l) := by
  simp [decBody.eq_def]

theorem decBody_ord (c : Char) (h1 : c ≠ '"') (h2 : c ≠ '\\') (l : Str) :
    decBody (c :: l) = (decBody l).map (fun p => (c :: p.1, p.2)) := by
  conv_lhs => rw [decBody.eq_def]
  simp [h1, h2]

theorem decBody_esc (e : Char) (he : e ≠ 'u') (l : Str) :
    decBody ('\\' :: e :: l)
      = (unescChar e).bind (fun ch => (decBody l).map (fun p => (ch :: p.1, p.2))) := by
  conv_lhs => rw [decBody.eq_def]
  simp [he]

theorem decBody_u (h1c h2c : Char) (x1 x2 : Nat) (l : Str)
    (ha : hexVal h1c = some x1) (hb : hexVal h2c = some x2) :
    decBody ('\\' :: 'u' :: '0' :: '0' :: h1c :: h2c :: l)
      = (decBody l).map (fun p => (Char.ofNat (x1 * 16 + x2) :: p.1, p.2)) := by
  have h0 : hexVal '0' = some 0 := rfl
  have hv : ((0 * 16 + 0) * 16 + x1) * 16 + x2 = x1 * 16 + x2 := by ring
  conv_lhs => rw [decBody.eq_def]
  simp [h0, ha, hb, hv]

theorem decBody_encBody (s : Str) : ∀ rest, decBody (encBody s ++ '"' :: rest) = some (s, rest) := by
  induction s with
  | nil =>
    intro rest
    simp [encBody, decBody_quote]
  | cons c cs ih =>
    intro rest
    show decBody ((encChar c ++ encBody cs) ++ '"' :: rest) = some (c :: cs, rest)
    rw [List.append_assoc]
    unfold encChar
    split_ifs with h1 h2 h3 h4 h5 h6 h7 h8
    · subst h1
      simp only [List.cons_append, List.nil_append]
      rw [decBody_esc _ (by decide), ih]
      rfl
    · subst h2
      simp only [List.cons_append, List.nil_append]
      rw [decBody_esc _ (by decide), ih]
      rfl
    · subst h3
      simp only [List.cons_append, List.nil_append]
      rw [decBody_esc _ (by decide), ih]
      rfl
    · subst h4
      simp only [List.cons_append, List.nil_append]
      rw [decBody_esc _ (by decide), ih]
      rfl
    · subst h5
      simp only [List.cons_append, List.nil_append]
      rw [decBody_esc _ (by decide), ih]
      rfl
    · subst h6
      simp only [List.cons_append, List.nil_append]
      rw [decBody_esc _ (by decide), ih]
      rfl
    · subst h7
      simp only [List.cons_append, List.nil_append]
      rw [decBody_esc _ (by decide), ih]
      rfl
    · simp only [List.cons_append, List.nil_append]
      have hd : c.toNat / 16 < 16 := Nat.div_lt_of_lt_mul (by omega)
      have hm : c.toNat % 16 < 16 := Nat.mod_lt _ (by omega)
      rw [decBody_u _ _ _ _ _ (hexVal_hexDigit _ hd) (hexVal_hexDigit _ hm), ih]
      have hvalue : c.toNat / 16 * 16 + c.toNat % 16 = c.toNat := by omega
      rw [hvalue, Char.ofNat_toNat]
      rfl
    · simp only [List.cons_append, List.nil_append]
      rw [decBody_ord c h1 h2, ih]
      rfl

theorem escape_eq (s : Str) : escape s = encBody (jsonEncode s) := by
  show ((jsonEncode (jsonEncode s)).drop 1).dropLast = _
  rw [show jsonEncode (jsonEncode s) = '"' :: (encBody (jsonEncode s) ++ ['"']) from rfl]
  simp [List.dropLast_concat]

theorem jsonDecString_jsonEncode (x : Str) : jsonDecString (jsonEncode x) = some x := by
  simp [jsonDecString, jsonEncode, decBody_encBody]

theorem hexDigit_safe (d : Nat) : hexDigit d ≠ '\n' ∧ hexDigit d ≠ '\t' := by
  constructor <;> (unfold hexDigit; split <;> decide)

theorem encChar_safe (c : Char) : ∀ ch ∈ encChar c, ch ≠ '\n' ∧ ch ≠ '\t' := by
  intro ch hch
  unfold encChar at hch
  split_ifs at hch with h1 h2 h3 h4 h5 h6 h7 h8
  · simp only [List.mem_cons, List.not_mem_nil, or_false] at hch
    rcases hch with rfl | rfl <;> decide
  · simp only [List.mem_cons, List.not_mem_nil, or_false] at hch
    rcases hch with rfl | rfl <;> decide
  · simp only [List.mem_cons, List.not_mem_nil, or_false] at hch
    rcases hch with rfl | rfl <;> decide
  · simp only [List.mem_cons, List.not_mem_nil, or_false] at hch
    rcases hch with rfl | rfl <;> decide
  · simp only [List.mem_cons, List.not_mem_nil, or_false] at hch
    rcases hch with rfl | rfl <;> decide
  · simp only [List.mem_cons, List.not_mem_nil, or_false] at hch
    rcases hch with rfl | rfl <;> decide
  · simp only [List.mem_cons, List.not_mem_nil, or_false] at hch
    rcases hch with rfl | rfl <;> decide
  · simp only [List.mem_cons, List.not_mem_nil, or_false] at hch
    rcases hch with rfl | rfl | rfl | rfl | rfl | rfl
    · decide
    · decide
    · decide
    · decide
    · exact hexDigit_safe _
    · exact hexDigit_safe _
  · simp only [List.mem_cons, List.not_mem_nil, or_false] at hch
    subst hch
    exact ⟨h5, h4⟩

theorem encBody_safe (s : Str) : ∀ ch ∈ encBody s, ch ≠ '\n' ∧ ch ≠ '\t' := by
  induction s with
  | nil =>
    intro ch hch
    simp [encBody] at hch
  | cons c cs ih =>
    intro ch hch
    simp only [encBody] at hch
    rcases List.mem_append.mp hch with h | h
    · exact encChar_safe c ch h
    · exact ih ch h

/-- Claim C3: the serializer's escaping (double JSON string encoding with
the outer quotes sliced off) never leaves a literal newline or tab in the
escaped text, and composing it with the JSON string-literal decoder twice
recovers the original string exactly, for every string. -/
theorem c3_escape_roundtrip (s : Str) :
    '\n' ∉ escape s ∧ '\t' ∉ escape s ∧ unescape (escape s) = some s := by
  refine ⟨?_, ?_, ?_⟩
  · intro h
    rw [escape_eq] at h
    exact (encBody_safe _ _ h).1 rfl
  · intro h
    rw [escape_eq] at h
    exact (encBody_safe _ _ h).2 rfl
  · have h1 : ('"' :: (escape s ++ ['"']) : Str) = jsonEncode (jsonEncode s) := by
      rw [escape_eq]
      rfl
    simp [unescape, h1, jsonDecString_jsonEncode]

/-- Witness for C3 at a concrete string containing a tab, a newline, a
quote, a backslash and a control character. -/
theorem c3_witness :
    '\n' ∉ escape (str "a\tb\nc\"d\\e\x01") ∧ '\t' ∉ escape (str "a\tb\nc\"d\\e\x01") ∧
      unescape (escape (str "a\tb\nc\"d\\e\x01")) = some (str "a\tb\nc\"d\\e\x01") :=
  c3_escape_roundtrip (str "a\tb\nc\"d\\e\x01")

/-! ### The extension signal and split-then-last -/

theorem splitC_ne_nil (c : Char) (l : Str) : splitC c l ≠ [] := by
  cases l with
  | nil => simp [splitC]
  | cons x xs =>
    cases h : splitC c xs with
    | nil => simp [splitC, h]
    | cons hd t =>
      simp only [splitC, h]
      split <;> simp

theorem splitC_length (c : Char) (l : Str) : (splitC c l).length = l.count c + 1 := by
  induction l with
  | nil => simp [splitC]
  | cons x xs ih =>
    cases h : splitC c xs with
    | nil => exact absurd h (splitC_ne_nil c xs)
    | cons hd t =>
      rw [h] at ih
      by_cases hxc : x = c
      · subst hxc
        simp only [splitC, h, List.count_cons_self]
        simp only [eq_self_iff_true, if_true]
        simp only [List.length_cons] at *
        omega
      · simp only [splitC, h]
        rw [if_neg hxc, List.count_cons_of_ne (fun hh => hxc hh.symm)]
        simp only [List.length_cons] at *
        omega

theorem splitC_of_not_mem (c : Char) (l : Str) (h : c ∉ l) : splitC c l = [l] := by
  induction l with
  | nil => simp [splitC]
  | cons x xs ih =>
    have hx : x ≠ c := fun hh => h (hh ▸ List.mem_cons_self x xs)
    have hxs : c ∉ xs := fun hh => h (List.mem_cons_of_mem x hh)
    simp [splitC, ih hxs, hx]

theorem afterLast_of_not_mem (c : Char) (l : Str) (h : c ∉ l) : afterLast c l = l := by
  induction l with
  | nil => rfl
  | cons x xs ih =>
    have hx : x ≠ c := fun hh => h (hh ▸ List.mem_cons_self x xs)
    have hxs : c ∉ xs := fun hh => h (List.mem_cons_of_mem x hh)
    simp [afterLast, hxs, hx]

theorem splitC_getLast (c : Char) (l : Str) :
    (splitC c l).getLast? = some (afterLast c l) := by
  induction l with
  | nil => rfl
  | cons x xs ih =>
    cases h : splitC c xs with
    | nil => exact absurd h (splitC_ne_nil c xs)
    | cons hd t =>
      rw [h] at ih
      by_cases hxc : x = c
      · subst hxc
        have hres : afterLast x (x :: xs) = afterLast x xs := by
          by_cases hmem : x ∈ xs
          · simp [afterLast, hmem]
          · simp [afterLast, hmem, afterLast_of_not_mem x xs hmem]
        rw [hres, ← ih]
        simp [splitC, h, List.getLast?_cons_cons]
      · cases t with
        | nil =>
          have hcount : xs.count c = 0 := by
            have hlen := splitC_length c xs
            rw [h] at hlen
            simp at hlen
            omega
          have hmem : c ∉ xs := List.count_eq_zero.mp hcount
          have hd_eq : hd = xs := by
            have hxs := splitC_of_not_mem c xs hmem
            rw [h] at hxs
            simpa using hxs
          have hres : afterLast c (x :: xs) = x :: xs := by
            simp [afterLast, hmem, hxc]
          rw [hres]
          simp [splitC, h, hxc, hd_eq]
        | cons t1 ts =>
          have hmem : c ∈ xs := by
            have hlen := splitC_length c xs
            rw [h] at hlen
            simp only [List.length_cons] at hlen
            rw [← List.count_pos_iff]
            omega
          have hres : afterLast c (x :: xs) = afterLast c xs := by
            simp [afterLast, hmem]
          rw [hres, ← ih]
          simp [splitC, h, hxc, List.getLast?_cons_cons]

theorem afterLast_dichotomy (a b : Char) (hab : a ≠ b) (l : Str) (h : a ∈ l) :
    a ∈ afterLast b l ∨ b ∈ afterLast a l := by
  induction l with
  | nil => cases h
  | cons x xs ih =>
    by_cases hax : a ∈ xs
    · rcases ih hax with h1 | h2
      · left
        by_cases hbx : b ∈ xs
        · simpa [afterLast, hbx] using h1
        · rw [afterLast_of_not_mem b xs hbx] at h1
          by_cases hxb : x = b
          · simpa [afterLast, hbx, hxb] using h1
          · simp [afterLast, hbx, hxb]
            right
            exact h1
      · right
        simpa [afterLast, hax] using h2
    · have hx : a = x := by
        rcases List.mem_cons.mp h with h1 | h1
        · exact h1
        · exact absurd h1 hax
      subst hx
      by_cases hbxs : b ∈ xs
      · right
        simp [afterLast, hax, hbxs]
      · left
        have hba : ¬(a = b) := hab
        simp [afterLast, hbxs, hba, hax]

theorem lowerStr_slash (s : Str) (h : '/' ∈ s) : '/' ∈ lowerStr s :=
  List.mem_map.mpr ⟨'/', h, by decide⟩

theorem contains_denylist_slash (s : Str) (h : '/' ∈ s) :
    binary_extensions.contains (lowerStr s) = false := by
  have hl : '/' ∈ lowerStr s := lowerStr_slash s h
  by_contra hc
  have hc2 : binary_extensions.contains (lowerStr s) = true := by
    revert hc
    cases binary_extensions.contains (lowerStr s) <;> simp
  have hmem : lowerStr s ∈ binary_extensions := List.elem_iff.mp hc2
  simp only [binary_extensions, List.mem_cons, List.not_mem_nil, or_false] at hmem
  rcases hmem with h1 | h1 | h1 | h1 | h1 | h1 | h1 <;>
    (rw [h1] at hl; revert hl; decide)

/-- Claim C6 counterexample: the path png has no dot in its final name
component, yet the extension signal classifies it as binary — split('.')
on a dotless path yields the whole path as its last piece, and the whole
path is a denylist word. -/
theorem c6_counterexample :
    '.' ∉ afterLast '/' (str "png") ∧ is_binary_file_by_extension (str "png") = true := by
  constructor
  · decide
  · rfl

/-- Claim C6 as amended: for a path whose final name component has no dot,
the extension signal fires exactly when the path contains no dot at all and
the whole path, lower-cased, is itself one of the denylist words; for every
other such path the signal is false. -/
theorem c6_ext_signal_no_dot (file : Str) (h : '.' ∉ afterLast '/' file) :
    is_binary_file_by_extension file = true ↔
      '.' ∉ file ∧ binary_extensions.contains (lowerStr file) = true := by
  unfold is_binary_file_by_extension
  rw [splitC_getLast]
  change binary_extensions.contains (lowerStr (afterLast '.' file)) = true ↔ _
  constructor
  · intro hc
    by_cases hdot : '.' ∈ file
    · exfalso
      rcases afterLast_dichotomy '.' '/' (by decide) file hdot with h1 | h2
      · exact h h1
      · rw [contains_denylist_slash _ h2] at hc
        cases hc
    · rw [afterLast_of_not_mem _ _ hdot] at hc
      exact ⟨hdot, hc⟩
  · rintro ⟨hdot, hc⟩
    rw [afterLast_of_not_mem _ _ hdot]
    exact hc

/-- Witness for C6 (amended) at a concrete dotless path: readme is not
classified binary by the extension signal. -/
theorem c6_witness :
    is_binary_file_by_extension (str "readme") = true ↔
      '.' ∉ str "readme" ∧ binary_extensions.contains (lowerStr (str "readme")) = true :=
  c6_ext_signal_no_dot (str "readme") (by decide)

/-- Claim C7 counterexample: walking a nonexistent root produces only a
walker error entry, which get_tracked_files logs and skips — the collector
returns Ok with the empty list, not a path-not-found error. -/
theorem c7_counterexample :
    get_tracked_files fsMissingRoot = Except.ok ([] : List Str) := rfl

/-- Claim C7 as amended: the existence check lives in main, not in the
collector: when the root path does not exist, main exits with the invalid
base path error before the serializer or collector run, while
get_tracked_files itself never fails — it always returns Ok with whatever
paths the walker produced. -/
theorem c7_amended (fs : Fs) (path : Str) (h : fs.pathExists path = false) :
    main_flow true fs path = MainStep.invalidBasePath ∧
    get_tracked_files fs = Except.ok (collectPaths fs.walkerOut) := by
  constructor
  · simp [main_flow, h]
  · rfl

/-- Witness for C7 (amended) at the concrete missing-root filesystem. -/
theorem c7_witness :
    main_flow true fsMissingRoot (str "/nonexistent") = MainStep.invalidBasePath ∧
    get_tracked_files fsMissingRoot = Except.ok (collectPaths fsMissingRoot.walkerOut) :=
  c7_amended fsMissingRoot (str "/nonexistent") rfl

/-- Claim C8: when the file's bytes are readable, a magic-number front or a
zero byte among the first min(length, 1024) bytes each force isBinary true
whatever the extension is, and when the 1024-byte window is clean and no
magic number matches, the content signal alone stays false — a zero byte
beyond the window does not trigger it. -/
theorem c8_content_signal (fs : Fs) (file : Str) (data : List Nat)
    (hread : fs.readBytes file = some data) :
    ((∃ magic ∈ MAGIC_NUMBERS, magic.isPrefixOf data = true) → is_binary_file fs file = true) ∧
    (0 ∈ data.take MAX_SCAN_SIZE → is_binary_file fs file = true) ∧
    ((0 ∉ data.take MAX_SCAN_SIZE ∧ ∀ magic ∈ MAGIC_NUMBERS, magic.isPrefixOf data = false) →
      is_binary_file_by_content fs file = false) := by
  have htake : data.take (min data.length MAX_SCAN_SIZE) = data.take MAX_SCAN_SIZE := by
    rcases Nat.le_total data.length MAX_SCAN_SIZE with hle | hle
    · rw [min_eq_left hle, List.take_length, List.take_of_length_le hle]
    · rw [min_eq_right hle]
  have hcontent : is_binary_file_by_content fs file
      = ((data.take MAX_SCAN_SIZE).contains 0
          || MAGIC_NUMBERS.any (fun magic => magic.isPrefixOf data)) := by
    simp only [is_binary_file_by_content, hread]
    rw [htake]
  refine ⟨?_, ?_, ?_⟩
  · intro ⟨magic, hmem, hpre⟩
    have hany : MAGIC_NUMBERS.any (fun magic => magic.isPrefixOf data) = true :=
      List.any_eq_true.mpr ⟨magic, hmem, hpre⟩
    unfold is_binary_file
    rw [hcontent, hany]
    simp
  · intro hz
    have hcont : (data.take MAX_SCAN_SIZE).contains 0 = true := List.elem_iff.mpr hz
    unfold is_binary_file
    rw [hcontent, hcont]
    simp
  · intro ⟨hz, hmg⟩
    rw [hcontent]
    have hcont : (data.take MAX_SCAN_SIZE).contains 0 = false := by
      cases hc : (data.take MAX_SCAN_SIZE).contains 0
      · rfl
      · exact absurd (List.elem_iff.mp hc) hz
    have hany : MAGIC_NUMBERS.any (fun magic => magic.isPrefixOf data) = false := by
      cases ha : MAGIC_NUMBERS.any (fun magic => magic.isPrefixOf data)
      · rfl
      · obtain ⟨magic, hmem, hpre⟩ := List.any_eq_true.mp ha
        rw [hmg magic hmem] at hpre
        cases hpre
    rw [hcont, hany]
    rfl

/-- Witness for C8: a file whose bytes are exactly the PNG magic number is
classified binary even under an extensionless name. -/
theorem c8_witness : is_binary_file fsPngBytes (str "noext") = true :=
  (c8_content_signal fsPngBytes (str "noext")
      [0x89, 0x50, 0x4E, 0x47, 0x0D, 0x0A, 0x1A, 0x0A] rfl).1
    ⟨[0x89, 0x50, 0x4E, 0x47, 0x0D, 0x0A, 0x1A, 0x0A], by decide, by decide⟩

/-! ### Serializer failure condition and collector output -/

theorem recordOf_eq_none (fs : Fs) (f : Str) :
    recordOf fs f = none ↔ (is_binary_file fs f = true ∨ fs.readToString f = none) := by
  unfold recordOf
  by_cases hb : is_binary_file fs f
  · simp [hb]
  · cases h : fs.readToString f <;> simp [hb, h]

/-- Claim C4: get_files_content fails with the no-readable-files error
exactly when every collected candidate is filtered out (classified binary
or unreadable); in particular a tree whose only candidate matches the
binary-extension denylist fails that way, and every successful run has at
least one surviving record. -/
theorem c4_no_readable_files (fs : Fs) :
    (get_files_content fs = Except.error (str "No readable files found") ↔
      ∀ f ∈ collectPaths fs.walkerOut,
        is_binary_file fs f = true ∨ fs.readToString f = none) ∧
    (∀ f, collectPaths fs.walkerOut = [f] → is_binary_file_by_extension f = true →
      get_files_content fs = Except.error (str "No readable files found")) ∧
    (∀ s, get_files_content fs = Except.ok s →
      ∃ f ∈ collectPaths fs.walkerOut,
        is_binary_file fs f = false ∧ fs.readToString f ≠ none) := by
  have hmain : get_files_content fs = Except.error (str "No readable files found") ↔
      (collectPaths fs.walkerOut).filterMap (recordOf fs) = [] := by
    unfold get_files_content get_tracked_files
    by_cases h : (collectPaths fs.walkerOut).filterMap (recordOf fs) = []
    · simp [h]
    · simp [h]
  have hiff : get_files_content fs = Except.error (str "No readable files found") ↔
      ∀ f ∈ collectPaths fs.walkerOut,
        is_binary_file fs f = true ∨ fs.readToString f = none := by
    rw [hmain, List.filterMap_eq_nil_iff]
    constructor
    · intro hall f hf
      exact (recordOf_eq_none fs f).mp (hall f hf)
    · intro hall f hf
      exact (recordOf_eq_none fs f).mpr (hall f hf)
  refine ⟨hiff, ?_, ?_⟩
  · intro f hcol hext
    rw [hiff, hcol]
    intro g hg
    rw [List.mem_singleton.mp hg]
    left
    unfold is_binary_file
    rw [hext]
    rfl
  · intro s hok
    have hne : ¬(get_files_content fs = Except.error (str "No readable files found")) := by
      rw [hok]
      intro hh
      cases hh
    rw [hiff] at hne
    push_neg at hne
    obtain ⟨f, hf, hprop⟩ := hne
    refine ⟨f, hf, ?_, hprop.2⟩
    cases hb : is_binary_file fs f
    · rfl
    · exact absurd hb hprop.1

/-- Witness for C4 at the concrete one-png-file tree. -/
theorem c4_witness :
    get_files_content fsOnlyPng = Except.error (str "No readable files found") :=
  (c4_no_readable_files fsOnlyPng).2.1 (str "a.png") rfl (by rfl)

/-- Claim C10: the collector's result is always Ok (walker errors and
non-UTF-8 paths are dropped silently, never surfaced), and every path in it
comes from a walker entry that has a UTF-8-encodable path and whose file
type is a regular file. -/
theorem c10_collector_paths (fs : Fs) :
    get_tracked_files fs = Except.ok (collectPaths fs.walkerOut) ∧
    ∀ p ∈ collectPaths fs.walkerOut, ∃ e : WalkEntry,
      Except.ok e ∈ fs.walkerOut ∧ e.path = some p ∧
      (e.ftype.map (fun ft => ft.isFile)).getD false = true := by
  refine ⟨rfl, ?_⟩
  generalize fs.walkerOut = w
  induction w with
  | nil =>
    intro p hp
    cases hp
  | cons entry rest ih =>
    intro p hp
    cases entry with
    | error e =>
      obtain ⟨en, hmem, hrest⟩ := ih p (by simpa [collectPaths] using hp)
      exact ⟨en, List.mem_cons_of_mem _ hmem, hrest⟩
    | ok e =>
      by_cases hft : (e.ftype.map (fun ft => ft.isFile)).getD false = true
      · cases hpath : e.path with
        | none =>
          have hp2 : p ∈ collectPaths rest := by
            simpa [collectPaths, hft, hpath] using hp
          obtain ⟨en, hmem, hrest⟩ := ih p hp2
          exact ⟨en, List.mem_cons_of_mem _ hmem, hrest⟩
        | some q =>
          have hp2 : p = q ∨ p ∈ collectPaths rest := by
            simpa [collectPaths, hft, hpath] using hp
          rcases hp2 with rfl | hp3
          · exact ⟨e, List.mem_cons_self _ _, hpath, hft⟩
          · obtain ⟨en, hmem, hrest⟩ := ih p hp3
            exact ⟨en, List.mem_cons_of_mem _ hmem, hrest⟩
      · have hp2 : p ∈ collectPaths rest := by
          simpa [collectPaths, hft] using hp
        obtain ⟨en, hmem, hrest⟩ := ih p hp2
        exact ⟨en, List.mem_cons_of_mem _ hmem, hrest⟩

/-- Witness for C10 at the concrete mixed walk: the single collected path
a.txt indeed comes from a UTF-8, regular-file entry. -/
theorem c10_witness :
    ∃ e : WalkEntry, Except.ok e ∈ fsWalk.walkerOut ∧ e.path = some (str "a.txt") ∧
      (e.ftype.map (fun ft => ft.isFile)).getD false = true :=
  (c10_collector_paths fsWalk).2 (str "a.txt") (by decide)

end Askrepo
